import Mathlib

/-
Verification of the resource-handle, launch-protocol and task-registration
layer of the Legion Python binding (bindings/python/legion.py).

The definitions below are a shallow embedding of the Python code: each
Python method that a claim depends on becomes a Lean function on an
explicit state record. Python assertions and exceptions become Except
errors; a slot removed by del becomes an Option field set to none; Python
object identity (used by the != checks on Future and Task objects, which
define no custom equality) becomes a numeric oid token. Engine calls
(external C code) are modelled only where a claim needs their behaviour,
and such definitions carry a doc comment starting with Modelled from the
spec.
-/

namespace Legion

/-- Kinds of Python exceptions raised by the binding code. -/
inductive PyErr where
  | assertionError
  | attributeError
  | nameError
  | exn (msg : String)
deriving DecidableEq, Repr

deriving instance DecidableEq for Except

/-- True when an operation completed without raising. -/
def isOk {α : Type} : Except PyErr α → Bool
  | Except.ok _ => true
  | Except.error _ => false

/-- Default of the MAX_DIM environment setting read at module load time. -/
def _max_dim : Nat := 3

/-- Integer interval from lo to hi inclusive, listed in increasing order:
the list of values produced by xrange(lo, hi + 1). -/
def xrange (lo hi : Int) : List Int :=
  (List.range (hi + 1 - lo).toNat).map fun k : Nat => lo + (k : Int)

/-- Product of a list of coordinate ranges in the order produced by
itertools.product: the last range varies fastest, so tuples come out in
row-major lexicographic order. -/
def iproduct : List (List Int) → List (List Int)
  | [] => [[]]
  | r :: rs => r.flatMap fun x => (iproduct rs).map fun p => x :: p

/-- State of a legion_domain_t handle: the dimension and the rect_data
array, which holds the low coordinate of axis i in slot i and the high
coordinate of axis i in slot i + dim; this is the layout the iteration
code in Domain.__iter__ reads back. -/
structure Domain where
  dim : Nat
  rect_data : List Int
deriving DecidableEq, Repr

/-- Low bound of axis i, read from rect_data[i]. -/
def Domain.lo (d : Domain) (i : Nat) : Int := d.rect_data.getD i 0

/-- High bound of axis i, read from rect_data[i + dim]. -/
def Domain.hi (d : Domain) (i : Nat) : Int := d.rect_data.getD (i + d.dim) 0

/-- Domain.__iter__: itertools.product of the per-axis ranges
xrange(rect_data[i], rect_data[i + dim] + 1), each tuple becoming a
DomainPoint (modelled as its list of coordinates). -/
def Domain.points (d : Domain) : List (List Int) :=
  iproduct ((List.range d.dim).map fun i => xrange (d.lo i) (d.hi i))

/-- Domain.create: when start is given its length must equal the length of
extent, the dimension must satisfy 1 <= len(extent) <= _max_dim, and the
rect is built with lo[i] = start[i] and hi[i] = start[i] + extent[i] - 1
(start defaults to all zeros). -/
def Domain.create (extent : List Int) (start : Option (List Int)) : Except PyErr Domain :=
  let st := start.getD (extent.map fun _ => 0)
  if start.isSome ∧ st.length ≠ extent.length then .error .assertionError
  else if 1 ≤ extent.length ∧ extent.length ≤ _max_dim then
    .ok { dim := extent.length,
          rect_data :=
            (List.range extent.length).map (fun i => st.getD i 0) ++
            (List.range extent.length).map fun i => st.getD i 0 + extent.getD i 0 - 1 }
  else .error .assertionError

/-- Modelled from the spec: legion_domain_get_volume is an external engine
call, not in src; per the spec the volume of a domain is the number of
integer points of its rectangle, which for this rect layout is the product
over the axes of hi - lo + 1 (clamped at zero for an empty axis). -/
def Domain.volume (d : Domain) : Nat :=
  ((List.range d.dim).map fun i => (d.hi i + 1 - d.lo i).toNat).prod

/-- Privilege triple (read, write, discard). -/
structure Privilege where
  read : Bool
  write : Bool
  discard : Bool
deriving DecidableEq, Repr

/-- Pre-defined privilege N: no access. -/
def N : Privilege := { read := false, write := false, discard := false }

/-- Pre-defined privilege R: read only. -/
def R : Privilege := { read := true, write := false, discard := false }

/-- Pre-defined privilege RO: read only. -/
def RO : Privilege := { read := true, write := false, discard := false }

/-- Pre-defined privilege RW: read write. -/
def RW : Privilege := { read := true, write := true, discard := false }

/-- Pre-defined privilege WD: write discard. -/
def WD : Privilege := { read := false, write := true, discard := true }

/-- Numeric identity of a legion_index_space_t handle: tid, id, type_tag. -/
structure IspaceHandle where
  tid : Nat
  id : Nat
  type_tag : Nat
deriving DecidableEq, Repr

/-- Ispace wrapper state: the handle slot (none once destroy has run
del self.handle) and the owned and escaped flags. -/
structure Ispace where
  handle : Option IspaceHandle
  owned : Bool
  escaped : Bool
deriving DecidableEq, Repr

/-- Ispace.__init__: copies the handle, records the owned flag as given and
starts with escaped = False. -/
def Ispace.init (handle : IspaceHandle) (owned : Bool) : Ispace :=
  { handle := some handle, owned := owned, escaped := false }

/-- Module-level _Ispace_unpickle: rebuilds the handle from the three
numeric identifiers and wraps it with the transmitted owned flag. -/
def _Ispace_unpickle (ispace_tid ispace_id ispace_type_tag : Nat) (owned : Bool) : Ispace :=
  Ispace.init { tid := ispace_tid, id := ispace_id, type_tag := ispace_type_tag } owned

/-- Ispace.__reduce__: the pickle payload (tid, id, type_tag,
owned and escaped); reading a handle slot deleted by destroy raises
AttributeError. -/
def Ispace.reduce (s : Ispace) : Except PyErr (Nat × Nat × Nat × Bool) :=
  match s.handle with
  | some h => .ok (h.tid, h.id, h.type_tag, s.owned && s.escaped)
  | none => .error .attributeError

/-- Ispace.destroy: asserts owned and not escaped, destroys the engine
resource through the handle slot (AttributeError if the slot was already
deleted by a previous destroy), then deletes the handle slot. -/
def Ispace.destroy (s : Ispace) : Except PyErr Ispace :=
  if s.owned = true ∧ s.escaped = false then
    match s.handle with
    | some _ => .ok { s with handle := none }
    | none => .error .attributeError
  else .error .assertionError

/-- Numeric identity of a legion_field_space_t handle. -/
structure FspaceHandle where
  id : Nat
deriving DecidableEq, Repr

/-- Fspace wrapper state: handle, field_ids and field_types slots (each
none once destroy has deleted it; field ids and types are opaque numeric
tokens keyed by field name) plus the owned and escaped flags. -/
structure Fspace where
  handle : Option FspaceHandle
  field_ids : Option (List (String × Nat))
  field_types : Option (List (String × Nat))
  owned : Bool
  escaped : Bool
deriving DecidableEq, Repr

/-- Fspace.__init__: copies the handle, stores the field maps, records the
owned flag as given and starts with escaped = False. -/
def Fspace.init (handle : FspaceHandle) (field_ids field_types : List (String × Nat))
    (owned : Bool) : Fspace :=
  { handle := some handle, field_ids := some field_ids,
    field_types := some field_types, owned := owned, escaped := false }

/-- Module-level _Fspace_unpickle: rebuilds the handle from the numeric id
and rewraps the transmitted field maps and owned flag. -/
def _Fspace_unpickle (fspace_id : Nat) (field_ids field_types : List (String × Nat))
    (owned : Bool) : Fspace :=
  Fspace.init { id := fspace_id } field_ids field_types owned

/-- Fspace.__reduce__: the pickle payload (id, field_ids, field_types,
owned and escaped); AttributeError once destroy has deleted the slots. -/
def Fspace.reduce (s : Fspace) :
    Except PyErr (Nat × List (String × Nat) × List (String × Nat) × Bool) :=
  match s.handle, s.field_ids, s.field_types with
  | some h, some fids, some ftys => .ok (h.id, fids, ftys, s.owned && s.escaped)
  | _, _, _ => .error .attributeError

/-- Fspace.destroy: asserts owned and not escaped, destroys through the
handle slot (AttributeError if already deleted), then deletes the handle,
field_ids and field_types slots. -/
def Fspace.destroy (s : Fspace) : Except PyErr Fspace :=
  if s.owned = true ∧ s.escaped = false then
    match s.handle with
    | some _ => .ok { s with handle := none, field_ids := none, field_types := none }
    | none => .error .attributeError
  else .error .assertionError

/-- Numeric identity of a legion_logical_region_t handle. -/
structure RegionHandle where
  tree_id : Nat
  index_space : IspaceHandle
  field_space : FspaceHandle
deriving DecidableEq, Repr

/-- Region wrapper state. The parent slot holds a parent Region for
subregions (only its presence is consulted by the modelled operations);
privileges is the per-field-name privilege map. The instances and
instance_wrappers slots hold lazily materialized engine-side physical
instances and are not consulted by any modelled operation. -/
structure Region where
  handle : Option RegionHandle
  ispace : Option Ispace
  fspace : Option Fspace
  parent : Option Unit
  privileges : List (String × Privilege)
  owned : Bool
  escaped : Bool
deriving DecidableEq, Repr

/-- Region._set_privilege: asserts the region is not a subregion and that
no privilege is recorded yet for this field name, then records one. -/
def Region._set_privilege (r : Region) (field_name : String) (privilege : Privilege) :
    Except PyErr Region :=
  if r.parent ≠ none then .error .assertionError
  else if (r.privileges.lookup field_name).isSome then .error .assertionError
  else .ok { r with privileges := r.privileges ++ [(field_name, privilege)] }

/-- Region.__init__: copies the handle, stores the component wrappers,
starts with an empty privilege map and escaped = False, and, when owned,
records the RW privilege for every field name of the field space. -/
def Region.init (handle : RegionHandle) (ispace : Ispace) (fspace : Fspace)
    (parent : Option Unit) (owned : Bool) : Except PyErr Region :=
  let r : Region :=
    { handle := some handle, ispace := some ispace, fspace := some fspace,
      parent := parent, privileges := [], owned := owned, escaped := false }
  if owned then
    match fspace.field_ids with
    | some fids => fids.foldlM (fun r p => r._set_privilege p.1 RW) r
    | none => .error .attributeError
  else .ok r

/-- Region.create: wraps the engine-created logical region handle (the
handle identity comes from the engine and is a parameter here) as an owned
Region with no parent. -/
def Region.create (handle : RegionHandle) (ispace : Ispace) (fspace : Fspace) :
    Except PyErr Region :=
  Region.init handle ispace fspace none true

/-- Module-level _Region_unpickle: rebuilds the region handle from the
transmitted tree id and the handles of the already-unpickled ispace and
fspace, then constructs the Region with the transmitted owned flag. -/
def _Region_unpickle (tree_id : Nat) (ispace : Ispace) (fspace : Fspace) (owned : Bool) :
    Except PyErr Region :=
  match ispace.handle, fspace.handle with
  | some ih, some fh =>
      Region.init { tree_id := tree_id, index_space := ih, field_space := fh }
        ispace fspace none owned
  | _, _ => .error .attributeError

/-- Region.__reduce__: the pickle payload (tree_id, ispace, fspace,
owned and escaped); the contained ispace and fspace wrappers are pickled
recursively by their own hooks. -/
def Region.reduce (r : Region) : Except PyErr (Nat × Ispace × Fspace × Bool) :=
  match r.handle, r.ispace, r.fspace with
  | some h, some is, some fs => .ok (h.tree_id, is, fs, r.owned && r.escaped)
  | _, _, _ => .error .attributeError

/-- Composition of Region.__reduce__ with unpickling: the contained Ispace
and Fspace are pickled and rebuilt by their own hooks, then
_Region_unpickle reassembles the Region, exactly as the pickle module
does across a process boundary. -/
def Region.roundTrip (r : Region) : Except PyErr Region := do
  let rd ← r.reduce
  let isd ← rd.2.1.reduce
  let fsd ← rd.2.2.1.reduce
  _Region_unpickle rd.1
    (_Ispace_unpickle isd.1 isd.2.1 isd.2.2.1 isd.2.2.2)
    (_Fspace_unpickle fsd.1 fsd.2.1 fsd.2.2.1 fsd.2.2.2)
    rd.2.2.2

/-- Region.destroy: asserts owned and not escaped, destroys through the
handle slot (AttributeError if already deleted), then deletes the parent,
handle, ispace and fspace slots. -/
def Region.destroy (r : Region) : Except PyErr Region :=
  if r.owned = true ∧ r.escaped = false then
    match r.handle with
    | some _ => .ok { r with parent := none, handle := none, ispace := none, fspace := none }
    | none => .error .attributeError
  else .error .assertionError

/-- Numeric identity of a legion_index_partition_t handle. -/
structure IpartitionHandle where
  id : Nat
  tid : Nat
  type_tag : Nat
deriving DecidableEq, Repr

/-- Ipartition wrapper state: handle, parent index space and color space
slots. This wrapper carries no owned or escaped flag at all; its __init__
copies the handle and explicitly does not assume ownership. -/
structure Ipartition where
  handle : Option IpartitionHandle
  parent : Option Ispace
  color_space : Option Ispace
deriving DecidableEq, Repr

/-- Ipartition.destroy: destroys through the handle slot (AttributeError if
the slot was already deleted) and deletes the slots; there is no ownership
or escape check of any kind. -/
def Ipartition.destroy (p : Ipartition) : Except PyErr Ipartition :=
  match p.handle with
  | some _ => .ok { handle := none, parent := none, color_space := none }
  | none => .error .attributeError

/-- Numeric identity of a legion_logical_partition_t handle. -/
structure PartitionHandle where
  tree_id : Nat
  index_partition : IpartitionHandle
  field_space : FspaceHandle
deriving DecidableEq, Repr

/-- Partition wrapper state: handle, parent region and index partition
slots. Like Ipartition, this wrapper carries no owned or escaped flag; its
__init__ copies the handle and does not assume ownership. -/
structure Partition where
  handle : Option PartitionHandle
  parent : Option Region
  ipartition : Option Ipartition
deriving DecidableEq, Repr

/-- Partition.destroy: destroys through the handle slot (AttributeError if
the slot was already deleted) and deletes the slots; there is no ownership
or escape check of any kind. -/
def Partition.destroy (p : Partition) : Except PyErr Partition :=
  match p.handle with
  | some _ => .ok { handle := none, parent := none, ipartition := none }
  | none => .error .attributeError

/-- Future wrapper state: the engine handle slot (an opaque token), the
declared value type (an opaque token) and the optional argument slot
number. -/
structure Future where
  handle : Option Nat
  value_type : Option Nat
  argument_number : Option Nat
deriving DecidableEq, Repr

/-- Future.__init__ on the value = None path, which is the path taken when
unpickling: no engine handle is created. -/
def Future.initNone (value_type argument_number : Option Nat) : Future :=
  { handle := none, value_type := value_type, argument_number := argument_number }

/-- Future.__reduce__: pickling is refused unless argument_number is set;
otherwise the pickle payload rebuilds Future(None, value_type,
argument_number). -/
def Future.reduce (f : Future) : Except PyErr (Option Nat × Option Nat) :=
  match f.argument_number with
  | none => .error (.exn "Cannot pickle a Future except when used as a task argument")
  | some n => .ok (f.value_type, some n)

/-- Context state consulted by the launch-nesting operations: the active
bulk-launch slot, holding the identity token of the active launch object.
The remaining Context slots hold engine handles and the tracked-object
list, which these operations do not consult. -/
structure Context where
  current_launch : Option Nat
deriving DecidableEq, Repr

/-- Context.begin_launch: asserts that no launch is currently active, then
records the given launch as the active one. -/
def Context.begin_launch (ctx : Context) (launch : Nat) : Except PyErr Context :=
  if ctx.current_launch = none then .ok { current_launch := some launch }
  else .error .assertionError

/-- Context.end_launch: asserts that the given launch is the active one,
then clears the active-launch slot. -/
def Context.end_launch (ctx : Context) (launch : Nat) : Except PyErr Context :=
  if ctx.current_launch = some launch then .ok { current_launch := none }
  else .error .assertionError

/-- Size of the task-id block reserved from the engine at module load
(max_legion_python_tasks). -/
def max_legion_python_tasks : Nat := 1000000

/-- Task.register, id-assignment part. init_id is the engine-assigned
start of the reserved id block (the module-load value of
next_legion_task_id); next is the current value of that counter; current
is the task id already stored on the Task object (registration asserts it
is None); task_id is the explicit argument, where Python treats both None
and 0 as falsy; top_level_task is the flag. Returns the assigned id
together with the new counter value. A counter-assigned id is asserted to
stay below init_id + max_legion_python_tasks. -/
def Task.register (init_id next : Nat) (current : Option Nat)
    (task_id : Option Nat) (top_level_task : Bool) : Except PyErr (Nat × Nat) :=
  if current ≠ none then .error .assertionError
  else if task_id = none ∨ task_id = some 0 then
    if top_level_task = false then
      if next < init_id + max_legion_python_tasks then .ok (next, next + 1)
      else .error .assertionError
    else .ok (1, next)
  else .ok (task_id.getD 0, next)

/-- Phases a shard passes through in Task.register when the global
task-registration barrier is active: arrive at the barrier, advance it and
wait (pre-registration), register the task variant with the engine, then
arrive, advance and wait again (post-registration). -/
inductive ShardPhase where
  | start
  | arrivedPre
  | passedPre
  | registered
  | arrivedPost
  | done
deriving DecidableEq, Repr

/-- Linear order of the phases along the protocol. -/
def ShardPhase.rank : ShardPhase → Nat
  | .start => 0
  | .arrivedPre => 1
  | .passedPre => 2
  | .registered => 3
  | .arrivedPost => 4
  | .done => 5

/-- Per-shard state: current phase in the protocol, the local
next_legion_task_id counter of that shard process, and the task id it has
registered (if it has). -/
structure ShardState where
  phase : ShardPhase
  next_task_id : Nat
  task_id : Option Nat
deriving DecidableEq, Repr

/-- Pointwise update of one shard in the shard vector. -/
def updShard {n : Nat} (s : Fin n → ShardState) (i : Fin n) (x : ShardState) :
    Fin n → ShardState :=
  fun j => if j = i then x else s j

/-- Modelled from the spec: one interleaving step of the n-shard
registration protocol of Task.register. The phase-barrier operations
(legion_phase_barrier_arrive, advance, wait) are external engine calls,
not in src; per the spec, wait returns only once every one of the n
shards has arrived at that barrier, which is the guard on the waitPre and
waitPost steps. The register step performs the counter assignment of
Task.register on the local shard counter. -/
inductive RegStep (n : Nat) : (Fin n → ShardState) → (Fin n → ShardState) → Prop where
  | arrivePre (s t : Fin n → ShardState) (i : Fin n) :
      (s i).phase = ShardPhase.start →
      t = updShard s i { s i with phase := ShardPhase.arrivedPre } →
      RegStep n s t
  | waitPre (s t : Fin n → ShardState) (i : Fin n) :
      (s i).phase = ShardPhase.arrivedPre →
      (∀ j, ShardPhase.rank ShardPhase.arrivedPre ≤ ShardPhase.rank ((s j).phase)) →
      t = updShard s i { s i with phase := ShardPhase.passedPre } →
      RegStep n s t
  | register (s t : Fin n → ShardState) (i : Fin n) :
      (s i).phase = ShardPhase.passedPre →
      t = updShard s i { phase := ShardPhase.registered,
                         next_task_id := (s i).next_task_id + 1,
                         task_id := some ((s i).next_task_id) } →
      RegStep n s t
  | arrivePost (s t : Fin n → ShardState) (i : Fin n) :
      (s i).phase = ShardPhase.registered →
      t = updShard s i { s i with phase := ShardPhase.arrivedPost } →
      RegStep n s t
  | waitPost (s t : Fin n → ShardState) (i : Fin n) :
      (s i).phase = ShardPhase.arrivedPost →
      (∀ j, ShardPhase.rank ShardPhase.arrivedPost ≤ ShardPhase.rank ((s j).phase)) →
      t = updShard s i { s i with phase := ShardPhase.done } →
      RegStep n s t

/-- Initial state: every shard at the start phase with the same
engine-assigned counter value c0 and no registered task id. -/
def regInit (n c0 : Nat) : Fin n → ShardState :=
  fun _ => { phase := ShardPhase.start, next_task_id := c0, task_id := none }

/-- States reachable from the initial state by interleaved protocol
steps. -/
def RegReachable (n c0 : Nat) (s : Fin n → ShardState) : Prop :=
  Relation.ReflTransGen (RegStep n) (regInit n c0) s

/-- Invariant of the registration protocol: a shard that has registered
holds the id c0 and an incremented counter, a shard that has not yet
registered holds no id and the original counter, and once any shard is
past the post-registration wait, every shard has at least arrived at the
post-registration barrier. -/
def RegInv (n c0 : Nat) (s : Fin n → ShardState) : Prop :=
  (∀ i, (3 ≤ ShardPhase.rank ((s i).phase) →
       (s i).task_id = some c0 ∧ (s i).next_task_id = c0 + 1) ∧
     (ShardPhase.rank ((s i).phase) < 3 →
       (s i).task_id = none ∧ (s i).next_task_id = c0)) ∧
  (∀ i, (s i).phase = ShardPhase.done →
    ∀ j, 4 ≤ ShardPhase.rank ((s j).phase))

/-- Kinds of Python argument objects passed to a spawn inside an
IndexLaunch. Distinct Python objects carry distinct oid tokens; the Future
class defines no custom equality, so the != check in check_compatibility
compares Future objects by identity, i.e. by oid. -/
inductive PyArg where
  | region (oid : Nat)
  | regionField (oid : Nat)
  | future (oid : Nat) (val : Int)
  | plain (v : Int)
deriving DecidableEq, Repr

/-- zip_longest over the two argument tuples with None padding, as used by
the argument loop of check_compatibility. -/
def zipLongest : List PyArg → List PyArg → List (Option PyArg × Option PyArg)
  | [], l2 => l2.map fun s => ((none : Option PyArg), some s)
  | a :: as, l2 =>
    match l2 with
    | [] => (some a, none) :: zipLongest as []
    | s :: ss => (some a, some s) :: zipLongest as ss

/-- Body of the argument loop of check_compatibility: a Region or
RegionField argument is always rejected; a Future argument is accepted
only when it is identically (the same object as) the argument saved at
this position; every other argument passes. -/
def checkArgPair : Option PyArg → Option PyArg → Bool
  | some (PyArg.region _), _ => false
  | some (PyArg.regionField _), _ => false
  | some (PyArg.future o v), saved => saved == some (PyArg.future o v)
  | _, _ => true

/-- IndexLaunch state consulted by the modelled operations: the launch
domain plus the task and argument tuple saved by the first spawn. Task
objects are compared by identity and are modelled by identity tokens. -/
structure IndexLaunch where
  domain : Domain
  saved_task : Option Nat
  saved_args : Option (List PyArg)
deriving DecidableEq, Repr

/-- IndexLaunch.check_compatibility: the first spawn saves its task and
argument tuple; every spawn is checked against the saved data. A spawn is
rejected when it targets a different task than the saved one, passes a
Region or RegionField argument at any position, or passes a Future
argument that is not identically the saved argument at that position (the
source raises two distinct exception messages for the last two cases;
they are collapsed here since only acceptance is claimed). -/
def IndexLaunch.check_compatibility (st : IndexLaunch) (task : Nat) (args : List PyArg) :
    Except PyErr IndexLaunch :=
  let saved_task := st.saved_task.getD task
  if task ≠ saved_task then
    .error (.exn "An IndexLaunch may contain only one task launch")
  else
    let saved_args := st.saved_args.getD args
    if (zipLongest args saved_args).all (fun p => checkArgPair p.1 p.2) then
      .ok { st with saved_task := some saved_task, saved_args := some saved_args }
    else .error (.exn "incompatible IndexLaunch arguments")

/-- Folding check_compatibility over the successive spawns of one index
launch; the first rejection aborts the iteration before anything reaches
the engine. -/
def IndexLaunch.spawn_all (st : IndexLaunch) (spawns : List (Nat × List PyArg)) :
    Except PyErr IndexLaunch :=
  spawns.foldlM (fun s p => s.check_compatibility p.1 p.2) st

/-- Values carried by the Future arguments of a spawn, in position order;
gather_futures collects exactly these values into the launcher future
list. -/
def futureValues (args : List PyArg) : List Int :=
  args.foldr (fun a acc => match a with | PyArg.future _ v => v :: acc | _ => acc) []

/-- Modelled from the spec: legion_index_launcher_execute is an external
engine call, not in src; per the spec, each future argument attached to an
index launch is broadcast to every point, so the FutureMap produced by the
launch carries the same future values at every point of the domain. -/
def index_launch_future_map (vs : List Int) : List Int → List Int :=
  fun _point => vs

/-- Argument given to IndexLaunch.__init__. -/
inductive DomainArg where
  | domain (d : Domain)
  | ispace (s : Ispace)
  | raw (extent : List Int)

/-- IndexLaunch.__init__: a Domain argument is taken as is; the Ispace
branch executes self.domain = ispace.domain, but the parameter is called
domain and no name ispace is defined anywhere in scope, so this branch
raises NameError for every Ispace; any other argument is passed to
Domain.create. -/
def IndexLaunch.init (domain : DomainArg) : Except PyErr IndexLaunch :=
  match domain with
  | DomainArg.domain d => .ok { domain := d, saved_task := none, saved_args := none }
  | DomainArg.ispace _ => .error PyErr.nameError
  | DomainArg.raw extent =>
      (Domain.create extent none).map fun d =>
        { domain := d, saved_task := none, saved_args := none }

/-- Membership in an integer range. -/
theorem mem_xrange {lo hi x : Int} : x ∈ xrange lo hi ↔ lo ≤ x ∧ x ≤ hi := by
  unfold xrange
  rw [List.mem_map]
  constructor
  · rintro ⟨k, hk, rfl⟩
    rw [List.mem_range] at hk
    omega
  · intro h
    refine ⟨(x - lo).toNat, ?_, ?_⟩
    · rw [List.mem_range]
      omega
    · omega

/-- An integer range is strictly increasing. -/
theorem pairwise_xrange (lo hi : Int) : (xrange lo hi).Pairwise (· < ·) := by
  unfold xrange
  exact (List.pairwise_lt_range _).map _ fun a b h => by omega

/-- An integer range has no duplicates. -/
theorem nodup_xrange (lo hi : Int) : (xrange lo hi).Nodup :=
  (pairwise_xrange lo hi).imp fun h => ne_of_lt h

/-- Length of an integer range. -/
theorem length_xrange (lo hi : Int) : (xrange lo hi).length = (hi + 1 - lo).toNat := by
  unfold xrange
  rw [List.length_map, List.length_range]

/-- A tuple is produced by iproduct exactly when it picks one member of
each range. -/
theorem mem_iproduct {rs : List (List Int)} {p : List Int} :
    p ∈ iproduct rs ↔ List.Forall₂ (fun x r => x ∈ r) p rs := by
  induction rs generalizing p with
  | nil =>
    simp only [iproduct, List.mem_singleton]
    constructor
    · rintro rfl
      exact List.Forall₂.nil
    · intro h
      cases h
      rfl
  | cons r rs ih =>
    simp only [iproduct, List.mem_flatMap, List.mem_map]
    constructor
    · rintro ⟨x, hx, q, hq, rfl⟩
      exact List.Forall₂.cons hx (ih.mp hq)
    · intro h
      cases h with
      | cons hx hq => exact ⟨_, hx, _, ih.mpr hq, rfl⟩

/-- Sum of a constant function over a list. -/
theorem sum_map_const_nat {α : Type} (l : List α) (c : Nat) :
    (l.map fun _ => c).sum = l.length * c := by
  rw [List.map_const']
  simp

/-- The number of tuples produced by iproduct is the product of the range
lengths. -/
theorem length_iproduct (rs : List (List Int)) :
    (iproduct rs).length = (rs.map List.length).prod := by
  induction rs with
  | nil => rfl
  | cons r rs ih =>
    show (r.flatMap fun x => (iproduct rs).map fun p => x :: p).length = _
    rw [List.length_flatMap]
    simp only [Function.comp_def, List.length_map, List.map_cons, List.prod_cons]
    rw [sum_map_const_nat, ih]

/-- iproduct of duplicate-free ranges is duplicate-free. -/
theorem nodup_iproduct {rs : List (List Int)} (h : ∀ r ∈ rs, r.Nodup) :
    (iproduct rs).Nodup := by
  induction rs with
  | nil => simp [iproduct]
  | cons r rs ih =>
    have hr : r.Nodup := h r (List.mem_cons_self r rs)
    have hqs : (iproduct rs).Nodup := ih fun x hx => h x (List.mem_cons_of_mem r hx)
    rw [show iproduct (r :: rs) = r.flatMap fun x => (iproduct rs).map fun p => x :: p
        from rfl, List.nodup_flatMap]
    constructor
    · intro x _
      exact hqs.map (fun p q hpq => by injection hpq)
    · refine hr.imp ?_
      intro a b hab z hz1 hz2
      obtain ⟨p, hp, rfl⟩ := List.mem_map.mp hz1
      obtain ⟨q, hq, hqz⟩ := List.mem_map.mp hz2
      exact hab (by injection hqz.symm)

/-- iproduct of strictly increasing ranges is strictly increasing in the
lexicographic order: the enumeration is row-major. -/
theorem pairwise_lex_iproduct {rs : List (List Int)} (h : ∀ r ∈ rs, r.Pairwise (· < ·)) :
    (iproduct rs).Pairwise (List.Lex (· < ·)) := by
  induction rs with
  | nil => simp [iproduct]
  | cons r rs ih =>
    have hr := h r (List.mem_cons_self r rs)
    have hqs := ih fun x hx => h x (List.mem_cons_of_mem r hx)
    rw [show iproduct (r :: rs) = r.flatMap fun x => (iproduct rs).map fun p => x :: p
        from rfl, List.flatMap_def, List.pairwise_flatten]
    refine ⟨?_, ?_⟩
    · intro l hl
      obtain ⟨x, hx, rfl⟩ := List.mem_map.mp hl
      exact hqs.map _ fun p q hpq => List.Lex.cons hpq
    · rw [List.pairwise_map]
      refine hr.imp ?_
      intro a b hab z hz1 w hz2
      obtain ⟨p, hp, rfl⟩ := List.mem_map.mp hz1
      obtain ⟨q, hq, rfl⟩ := List.mem_map.mp hz2
      exact List.Lex.rel hab

/-- Reading an indexed map over a range with getD. -/
theorem getD_map_range {f : Nat → Int} {n i : Nat} (h : i < n) :
    (((List.range n).map f).getD i 0) = f i := by
  rw [List.getD_eq_getElem?_getD, List.getElem?_map, List.getElem?_range h]
  rfl

/-- The default start vector reads as zero at every index. -/
theorem getD_map_zero (l : List Int) (i : Nat) :
    ((l.map fun _ => (0 : Int)).getD i 0) = 0 := by
  induction l generalizing i with
  | nil => rfl
  | cons a l ih =>
    cases i with
    | zero => rfl
    | succ i => exact ih i

/-- Turning an index-based map over a range into a direct map. -/
theorem range_map_getD {β : Type} (l : List Int) (f : Int → β) :
    (List.range l.length).map (fun i => f (l.getD i 0)) = l.map f := by
  induction l with
  | nil => rfl
  | cons a l ih =>
    rw [List.length_cons, List.range_succ_eq_map, List.map_cons, List.map_map]
    rw [show ((fun i => f ((a :: l).getD i 0)) ∘ Nat.succ) = fun i => f (l.getD i 0)
        from rfl, ih]
    rfl

/-- Map congruence over shared members. -/
theorem map_congr_mem {α β : Type} {l : List α} {f g : α → β}
    (h : ∀ a ∈ l, f a = g a) : l.map f = l.map g := by
  induction l with
  | nil => rfl
  | cons a l ih =>
    simp only [List.map_cons]
    rw [h a (List.mem_cons_self a l), ih fun b hb => h b (List.mem_cons_of_mem a hb)]

/-- Reading the low half of the rect_data layout. -/
theorem getD_range_map_append_left {f g : Nat → Int} {n i : Nat} (h : i < n) :
    ((((List.range n).map f) ++ ((List.range n).map g)).getD i 0) = f i := by
  rw [List.getD_append _ _ _ _
    (by rw [List.length_map, List.length_range]; exact h), getD_map_range h]

/-- Reading the high half of the rect_data layout. -/
theorem getD_range_map_append_right {f g : Nat → Int} {n i : Nat} (h : i < n) :
    ((((List.range n).map f) ++ ((List.range n).map g)).getD (i + n) 0) = g i := by
  rw [List.getD_append_right _ _ _ _
    (by rw [List.length_map, List.length_range]; exact Nat.le_add_left n i)]
  have hlen : ((List.range n).map f).length = n := by simp
  rw [hlen, Nat.add_sub_cancel, getD_map_range h]

/-- Shape of a Domain built by Domain.create from an extent with default
start: the point list is the row-major product of the per-axis ranges
from 0 to extent - 1, and the volume is the product of the extents. -/
theorem create_points (extent : List Int) (d : Domain)
    (hc : Domain.create extent none = Except.ok d) :
    d.dim = extent.length ∧
    d.points = iproduct (extent.map fun e => xrange 0 (e - 1)) ∧
    d.volume = (extent.map Int.toNat).prod := by
  rw [Domain.create] at hc
  simp only [Option.getD_none, Option.isSome_none, Bool.false_eq_true, false_and,
    if_false] at hc
  split at hc
  case isFalse => exact absurd hc (by simp)
  case isTrue hlen =>
    have hd := Except.ok.inj hc
    subst hd
    refine ⟨rfl, ?_, ?_⟩
    · simp only [Domain.points, Domain.lo, Domain.hi]
      congr 1
      refine Eq.trans (map_congr_mem ?_) (range_map_getD extent fun e => xrange 0 (e - 1))
      intro i hi
      rw [List.mem_range] at hi
      rw [getD_range_map_append_left hi, getD_range_map_append_right hi,
        getD_map_zero, zero_add]
    · simp only [Domain.volume, Domain.lo, Domain.hi]
      refine Eq.trans (congrArg List.prod (Eq.trans (map_congr_mem ?_)
        (range_map_getD extent Int.toNat))) rfl
      intro i hi
      rw [List.mem_range] at hi
      rw [getD_range_map_append_left hi, getD_range_map_append_right hi, getD_map_zero]
      omega

/-- Claim C4: iterating a Domain created with extent [3, 2] yields exactly
6 DomainPoints, in row-major lexicographic order, each within the
rectangle 0 to 3 by 0 to 2; in general, for every extent list of length
1 to _max_dim, iteration enumerates every integer point of the rectangle
exactly once in row-major lexicographic order, and the number of points
equals the volume of the domain. -/
theorem domain_iteration_row_major :
    (Domain.create [3, 2] none = Except.ok (Domain.mk 2 [0, 0, 2, 1]) ∧
      (Domain.mk 2 [0, 0, 2, 1]).points =
        [[0, 0], [0, 1], [1, 0], [1, 1], [2, 0], [2, 1]] ∧
      (Domain.mk 2 [0, 0, 2, 1]).points.length = 6) ∧
    ∀ (extent : List Int) (d : Domain),
      1 ≤ extent.length → extent.length ≤ _max_dim →
      Domain.create extent none = Except.ok d →
      ((∀ p, p ∈ d.points ↔ List.Forall₂ (fun x e => 0 ≤ x ∧ x < e) p extent) ∧
        d.points.Nodup ∧
        d.points.Pairwise (List.Lex (· < ·)) ∧
        d.points.length = d.volume) := by
  constructor
  · exact ⟨by decide, by decide, by decide⟩
  · intro extent d h1 h2 hc
    obtain ⟨hdim, hpts, hvol⟩ := create_points extent d hc
    refine ⟨?_, ?_, ?_, ?_⟩
    · intro p
      rw [hpts, mem_iproduct, List.forall₂_map_right_iff]
      constructor
      · intro h
        exact h.imp fun x e hx => by rw [mem_xrange] at hx; omega
      · intro h
        exact h.imp fun x e hx => by rw [mem_xrange]; omega
    · refine hpts ▸ nodup_iproduct ?_
      intro r hr
      obtain ⟨e, he, rfl⟩ := List.mem_map.mp hr
      exact nodup_xrange 0 (e - 1)
    · refine hpts ▸ pairwise_lex_iproduct ?_
      intro r hr
      obtain ⟨e, he, rfl⟩ := List.mem_map.mp hr
      exact pairwise_xrange 0 (e - 1)
    · rw [hpts, hvol, length_iproduct, List.map_map]
      congr 1
      apply map_congr_mem
      intro e he
      show (xrange 0 (e - 1)).length = e.toNat
      rw [length_xrange]
      omega

/-- Witness for claim C4 at the concrete extent [3, 2]. -/
theorem domain_iteration_row_major_witness :
    (Domain.mk 2 [0, 0, 2, 1]).points.Nodup ∧
    (Domain.mk 2 [0, 0, 2, 1]).points.Pairwise (List.Lex (· < ·)) ∧
    (Domain.mk 2 [0, 0, 2, 1]).points.length = (Domain.mk 2 [0, 0, 2, 1]).volume := by
  have h := domain_iteration_row_major.2 [3, 2] (Domain.mk 2 [0, 0, 2, 1])
    (by decide) (by decide) (by decide)
  exact ⟨h.2.1, h.2.2.1, h.2.2.2⟩

/-- Bind of a successful Except computation. -/
theorem exc_bind_ok {α β : Type} (a : α) (f : α → Except PyErr β) :
    (Except.ok a >>= f) = f a := rfl

/-- Map over a successful Except computation. -/
theorem exc_map_ok {α β : Type} (f : α → β) (a : α) :
    (Except.ok (ε := PyErr) a).map f = Except.ok (f a) := rfl

/-- Claim C2 counterexample: the Partition and Ipartition wrappers carry no
owned or escaped flag at all (their constructors copy a borrowed handle and
explicitly do not assume ownership), yet destroy succeeds on such a
non-owned live handle instead of failing as the claim states for every
handle type with destroy. -/
theorem destroy_ownership_counterexample :
    isOk (Partition.destroy
      { handle := some { tree_id := 3,
                         index_partition := { id := 7, tid := 1, type_tag := 8 },
                         field_space := { id := 5 } },
        parent := some { handle := some { tree_id := 3, index_space := { tid := 1, id := 2, type_tag := 8 },
                                          field_space := { id := 5 } },
                         ispace := some { handle := some { tid := 1, id := 2, type_tag := 8 },
                                          owned := true, escaped := false },
                         fspace := some { handle := some { id := 5 },
                                          field_ids := some [("x", 100)],
                                          field_types := some [("x", 0)],
                                          owned := true, escaped := false },
                         parent := none, privileges := [("x", RW)],
                         owned := true, escaped := false },
        ipartition := some { handle := some { id := 7, tid := 1, type_tag := 8 },
                             parent := some { handle := some { tid := 1, id := 2, type_tag := 8 },
                                              owned := true, escaped := false },
                             color_space := some { handle := some { tid := 9, id := 10, type_tag := 8 },
                                                   owned := true, escaped := false } } }) = true ∧
    isOk (Ipartition.destroy
      { handle := some { id := 7, tid := 1, type_tag := 8 },
        parent := some { handle := some { tid := 1, id := 2, type_tag := 8 },
                         owned := true, escaped := false },
        color_space := none }) = true := by
  exact ⟨rfl, rfl⟩

/-- Claim C2 (amended): on Ispace, Fspace and Region, destroy succeeds
exactly on an owned, non-escaped handle whose handle slot is still
present, and a second destroy on the result fails (with AttributeError,
the handle slot having been deleted); destroy on a non-owned or escaped
handle fails. Ipartition and Partition track no ownership: their destroy
performs no ownership or escape check and succeeds on any handle not yet
destroyed, and only a second destroy fails. -/
theorem destroy_semantics :
    (∀ s : Ispace, isOk s.destroy = true ↔
        (s.owned = true ∧ s.escaped = false ∧ s.handle ≠ none)) ∧
    (∀ s s2 : Ispace, s.destroy = Except.ok s2 →
        s2.destroy = Except.error PyErr.attributeError) ∧
    (∀ s : Fspace, isOk s.destroy = true ↔
        (s.owned = true ∧ s.escaped = false ∧ s.handle ≠ none)) ∧
    (∀ s s2 : Fspace, s.destroy = Except.ok s2 →
        s2.destroy = Except.error PyErr.attributeError) ∧
    (∀ r : Region, isOk r.destroy = true ↔
        (r.owned = true ∧ r.escaped = false ∧ r.handle ≠ none)) ∧
    (∀ r r2 : Region, r.destroy = Except.ok r2 →
        r2.destroy = Except.error PyErr.attributeError) ∧
    (∀ p : Ipartition, isOk p.destroy = true ↔ p.handle ≠ none) ∧
    (∀ p p2 : Ipartition, p.destroy = Except.ok p2 →
        p2.destroy = Except.error PyErr.attributeError) ∧
    (∀ q : Partition, isOk q.destroy = true ↔ q.handle ≠ none) ∧
    (∀ q q2 : Partition, q.destroy = Except.ok q2 →
        q2.destroy = Except.error PyErr.attributeError) := by
  refine ⟨?_, ?_, ?_, ?_, ?_, ?_, ?_, ?_, ?_, ?_⟩
  · intro s
    rcases s with ⟨h, o, e⟩
    cases o <;> cases e <;> cases h <;> simp [Ispace.destroy, isOk]
  · intro s s2 hd
    unfold Ispace.destroy at hd
    split at hd
    case isTrue hcond =>
      cases hh : s.handle with
      | some h =>
        rw [hh] at hd
        have h2 := Except.ok.inj hd
        subst h2
        unfold Ispace.destroy
        rw [if_pos hcond]
      | none =>
        rw [hh] at hd
        exact Except.noConfusion hd
    case isFalse hcond => exact Except.noConfusion hd
  · intro s
    rcases s with ⟨h, fi, ft, o, e⟩
    cases o <;> cases e <;> cases h <;> simp [Fspace.destroy, isOk]
  · intro s s2 hd
    unfold Fspace.destroy at hd
    split at hd
    case isTrue hcond =>
      cases hh : s.handle with
      | some h =>
        rw [hh] at hd
        have h2 := Except.ok.inj hd
        subst h2
        unfold Fspace.destroy
        rw [if_pos hcond]
      | none =>
        rw [hh] at hd
        exact Except.noConfusion hd
    case isFalse hcond => exact Except.noConfusion hd
  · intro r
    rcases r with ⟨h, ri, rf, rp, rpriv, o, e⟩
    cases o <;> cases e <;> cases h <;> simp [Region.destroy, isOk]
  · intro r r2 hd
    unfold Region.destroy at hd
    split at hd
    case isTrue hcond =>
      cases hh : r.handle with
      | some h =>
        rw [hh] at hd
        have h2 := Except.ok.inj hd
        subst h2
        unfold Region.destroy
        rw [if_pos hcond]
      | none =>
        rw [hh] at hd
        exact Except.noConfusion hd
    case isFalse hcond => exact Except.noConfusion hd
  · intro p
    rcases p with ⟨h, pp, pc⟩
    cases h <;> simp [Ipartition.destroy, isOk]
  · intro p p2 hd
    unfold Ipartition.destroy at hd
    cases hh : p.handle with
    | some h =>
      rw [hh] at hd
      have h2 := Except.ok.inj hd
      subst h2
      rfl
    | none =>
      rw [hh] at hd
      exact Except.noConfusion hd
  · intro q
    rcases q with ⟨h, qp, qi⟩
    cases h <;> simp [Partition.destroy, isOk]
  · intro q q2 hd
    unfold Partition.destroy at hd
    cases hh : q.handle with
    | some h =>
      rw [hh] at hd
      have h2 := Except.ok.inj hd
      subst h2
      rfl
    | none =>
      rw [hh] at hd
      exact Except.noConfusion hd

/-- Witness for claim C2: a concrete owned, non-escaped Ispace is destroyed
once, and the second destroy on the result raises AttributeError. -/
theorem destroy_semantics_witness :
    (Ispace.mk none true false).destroy = Except.error PyErr.attributeError :=
  destroy_semantics.2.1 (Ispace.mk (some (IspaceHandle.mk 1 2 3)) true false)
    (Ispace.mk none true false) rfl

/-- Lookup distributes over append of privilege maps. -/
theorem lookup_append (l l2 : List (String × Privilege)) (k : String) :
    (l ++ l2).lookup k = ((l.lookup k).orElse fun _ => l2.lookup k) := by
  induction l with
  | nil => rfl
  | cons a l ih =>
    obtain ⟨a1, a2⟩ := a
    rw [List.cons_append, List.lookup_cons, List.lookup_cons]
    cases hb : k == a1
    · exact ih
    · rfl

/-- Lookup misses a singleton with a different key. -/
theorem lookup_singleton_ne {k a : String} {v : Privilege} (h : k ≠ a) :
    ([(a, v)] : List (String × Privilege)).lookup k = none := by
  rw [List.lookup_cons]
  rw [beq_eq_false_iff_ne.mpr h]
  rfl

/-- Looking up any field name in the all-RW privilege map built from a
field list. -/
theorem lookup_map_RW (fids : List (String × Nat)) (f : String) :
    ((fids.map fun p => (p.1, RW)).lookup f = some RW ↔ f ∈ fids.map Prod.fst) := by
  induction fids with
  | nil => simp
  | cons q fids ih =>
    rw [List.map_cons, List.lookup_cons, List.map_cons, List.mem_cons]
    cases hb : f == q.1
    · have hne : ¬f = q.1 := by
        intro h
        subst h
        simp at hb
      show (fids.map fun p => (p.1, RW)).lookup f = some RW ↔ _
      rw [ih]
      exact ⟨Or.inr, fun h => h.resolve_left hne⟩
    · have heq : f = q.1 := eq_of_beq hb
      show some RW = some RW ↔ _
      simp [heq]

/-- Folding _set_privilege over a list of fresh field names extends the
privilege map with one RW entry per field, in order. -/
theorem set_privilege_fold (fids : List (String × Nat)) :
    ∀ r : Region, r.parent = none →
      (∀ p ∈ fids, r.privileges.lookup p.1 = none) →
      (fids.map Prod.fst).Nodup →
      fids.foldlM (fun r p => r._set_privilege p.1 RW) r =
        Except.ok { r with privileges := r.privileges ++ fids.map fun p => (p.1, RW) } := by
  induction fids with
  | nil =>
    intro r hpar hfresh hnodup
    simp only [List.foldlM_nil, List.map_nil, List.append_nil]
    rfl
  | cons q fids ih =>
    intro r hpar hfresh hnodup
    have hq : r.privileges.lookup q.1 = none := hfresh q (List.mem_cons_self q fids)
    have hstep : r._set_privilege q.1 RW =
        Except.ok { r with privileges := r.privileges ++ [(q.1, RW)] } := by
      unfold Region._set_privilege
      rw [if_neg (by rw [hpar]; exact fun h => h rfl)]
      rw [if_neg (by rw [hq]; exact fun h => by cases h)]
    rw [List.foldlM_cons, hstep, exc_bind_ok]
    have hnodup2 : (fids.map Prod.fst).Nodup := (List.nodup_cons.mp hnodup).2
    have hqnotin : q.1 ∉ fids.map Prod.fst := (List.nodup_cons.mp hnodup).1
    rw [ih { r with privileges := r.privileges ++ [(q.1, RW)] } hpar ?_ hnodup2]
    · congr 1
      simp
    · intro p hp
      rw [lookup_append, hfresh p (List.mem_cons_of_mem q hp)]
      show ([(q.1, RW)] : List (String × Privilege)).lookup p.1 = none
      refine lookup_singleton_ne ?_
      intro hpq
      exact hqnotin (hpq ▸ List.mem_map_of_mem Prod.fst hp)

/-- Fold of _set_privilege over a fresh region record with an empty
privilege map. -/
theorem set_privilege_fold_base (fids : List (String × Nat))
    (h : Option RegionHandle) (is : Option Ispace) (fs : Option Fspace)
    (o e : Bool) (hnodup : (fids.map Prod.fst).Nodup) :
    fids.foldlM (fun r p => r._set_privilege p.1 RW)
      ({ handle := h, ispace := is, fspace := fs, parent := none,
         privileges := [], owned := o, escaped := e } : Region) =
      Except.ok
        ({ handle := h, ispace := is, fspace := fs, parent := none,
           privileges := fids.map (fun p => (p.1, RW)), owned := o,
           escaped := e } : Region) := by
  have hfold := set_privilege_fold fids
    ({ handle := h, ispace := is, fspace := fs, parent := none,
       privileges := [], owned := o, escaped := e } : Region) rfl
    (fun p hp => rfl) hnodup
  simpa using hfold

/-- Equation form of Ispace.__reduce__ on a live handle. -/
theorem ispace_reduce_eq (s : Ispace) (h : IspaceHandle) (hs : s.handle = some h) :
    s.reduce = Except.ok (h.tid, h.id, h.type_tag, s.owned && s.escaped) := by
  unfold Ispace.reduce
  rw [hs]

/-- Equation form of Fspace.__reduce__ on a live handle. -/
theorem fspace_reduce_eq (s : Fspace) (h : FspaceHandle) (fids ftys : List (String × Nat))
    (h1 : s.handle = some h) (h2 : s.field_ids = some fids)
    (h3 : s.field_types = some ftys) :
    s.reduce = Except.ok (h.id, fids, ftys, s.owned && s.escaped) := by
  unfold Fspace.reduce
  rw [h1, h2, h3]

/-- Equation form of Region.__reduce__ on a live handle. -/
theorem region_reduce_eq (r : Region) (h : RegionHandle) (is : Ispace) (fs : Fspace)
    (h1 : r.handle = some h) (h2 : r.ispace = some is) (h3 : r.fspace = some fs) :
    r.reduce = Except.ok (h.tree_id, is, fs, r.owned && r.escaped) := by
  unfold Region.reduce
  rw [h1, h2, h3]

/-- Equation form of Region.__init__ with owned = True: the privileges of
every field of the field space are set by the fold. -/
theorem region_init_owned_eq (h : RegionHandle) (is : Ispace) (fs : Fspace)
    (fids : List (String × Nat)) (hfid : fs.field_ids = some fids) :
    Region.init h is fs none true =
      fids.foldlM (fun r p => r._set_privilege p.1 RW)
        { handle := some h, ispace := some is, fspace := some fs, parent := none,
          privileges := [], owned := true, escaped := false } := by
  unfold Region.init
  rw [hfid]
  rfl

/-- Equation form of _Region_unpickle on live component handles. -/
theorem region_unpickle_eq (t : Nat) (is : Ispace) (fs : Fspace)
    (ihd : IspaceHandle) (fhd : FspaceHandle) (owned : Bool)
    (h1 : is.handle = some ihd) (h2 : fs.handle = some fhd) :
    _Region_unpickle t is fs owned =
      Region.init { tree_id := t, index_space := ihd, field_space := fhd }
        is fs none owned := by
  unfold _Region_unpickle
  rw [h1, h2]

/-- Claim C1: for every owned handle (Ispace, Fspace or Region) that has
not escaped, unpickling the pickle yields a handle whose identifying
fields (tree id, space id, type tag, field ids and types) equal those of
the original and whose owned flag is false; in general the reconstructed
owned flag equals owned AND escaped, so a deserialized copy never assumes
destruction responsibility unless the original had already escaped. -/
theorem handle_unpickle_round_trip :
    (∀ (s : Ispace) (h : IspaceHandle), s.handle = some h →
      (s.reduce.map fun out => _Ispace_unpickle out.1 out.2.1 out.2.2.1 out.2.2.2) =
        Except.ok { handle := some h, owned := s.owned && s.escaped, escaped := false }) ∧
    (∀ (s : Fspace) (h : FspaceHandle) (fids ftys : List (String × Nat)),
      s.handle = some h → s.field_ids = some fids → s.field_types = some ftys →
      (s.reduce.map fun out => _Fspace_unpickle out.1 out.2.1 out.2.2.1 out.2.2.2) =
        Except.ok { handle := some h, field_ids := some fids, field_types := some ftys,
                    owned := s.owned && s.escaped, escaped := false }) ∧
    (∀ (r : Region) (t : Nat) (ihd : IspaceHandle) (fhd : FspaceHandle)
        (is : Ispace) (fs : Fspace) (fids ftys : List (String × Nat)),
      r.handle = some { tree_id := t, index_space := ihd, field_space := fhd } →
      r.ispace = some is → r.fspace = some fs →
      is.handle = some ihd → fs.handle = some fhd →
      fs.field_ids = some fids → fs.field_types = some ftys →
      (fids.map Prod.fst).Nodup →
      r.roundTrip = Except.ok
        { handle := some { tree_id := t, index_space := ihd, field_space := fhd },
          ispace := some { handle := some ihd, owned := is.owned && is.escaped,
                           escaped := false },
          fspace := some { handle := some fhd, field_ids := some fids,
                           field_types := some ftys,
                           owned := fs.owned && fs.escaped, escaped := false },
          parent := none,
          privileges := if r.owned && r.escaped then fids.map fun p => (p.1, RW) else [],
          owned := r.owned && r.escaped,
          escaped := false }) := by
  refine ⟨?_, ?_, ?_⟩
  · intro s h hs
    rw [ispace_reduce_eq s h hs, exc_map_ok]
    rfl
  · intro s h fids ftys hs hfi hft
    rw [fspace_reduce_eq s h fids ftys hs hfi hft, exc_map_ok]
    rfl
  · intro r t ihd fhd is fs fids ftys hr hri hrf hish hfsh hfid hfty hnodup
    unfold Region.roundTrip
    rw [region_reduce_eq r { tree_id := t, index_space := ihd, field_space := fhd }
      is fs hr hri hrf]
    simp only [exc_bind_ok]
    rw [ispace_reduce_eq is ihd hish]
    simp only [exc_bind_ok]
    rw [fspace_reduce_eq fs fhd fids ftys hfsh hfid hfty]
    simp only [exc_bind_ok]
    rw [region_unpickle_eq _ _ _
      { tid := ihd.tid, id := ihd.id, type_tag := ihd.type_tag } { id := fhd.id } _ rfl rfl]
    cases hoe : r.owned && r.escaped
    · rfl
    · rw [region_init_owned_eq _ _ _ fids rfl]
      rw [set_privilege_fold_base fids _ _ _ _ _ hnodup]
      rfl

/-- Witness for claim C1 on concrete owned, non-escaped handles. -/
theorem handle_unpickle_round_trip_witness :
    ((Ispace.mk (some (IspaceHandle.mk 1 2 3)) true false).reduce.map fun out =>
        _Ispace_unpickle out.1 out.2.1 out.2.2.1 out.2.2.2) =
      Except.ok (Ispace.mk (some (IspaceHandle.mk 1 2 3)) false false) ∧
    Region.roundTrip
      { handle := some { tree_id := 4, index_space := { tid := 1, id := 2, type_tag := 3 },
                         field_space := { id := 5 } },
        ispace := some { handle := some { tid := 1, id := 2, type_tag := 3 },
                         owned := true, escaped := false },
        fspace := some { handle := some { id := 5 }, field_ids := some [("x", 100)],
                         field_types := some [("x", 0)], owned := true, escaped := false },
        parent := none, privileges := [("x", RW)], owned := true, escaped := false } =
      Except.ok
        { handle := some { tree_id := 4, index_space := { tid := 1, id := 2, type_tag := 3 },
                           field_space := { id := 5 } },
          ispace := some { handle := some { tid := 1, id := 2, type_tag := 3 },
                           owned := false, escaped := false },
          fspace := some { handle := some { id := 5 }, field_ids := some [("x", 100)],
                           field_types := some [("x", 0)], owned := false, escaped := false },
          parent := none, privileges := [], owned := false, escaped := false } := by
  constructor
  · exact handle_unpickle_round_trip.1 _ _ rfl
  · exact handle_unpickle_round_trip.2.2
      { handle := some { tree_id := 4, index_space := { tid := 1, id := 2, type_tag := 3 },
                         field_space := { id := 5 } },
        ispace := some { handle := some { tid := 1, id := 2, type_tag := 3 },
                         owned := true, escaped := false },
        fspace := some { handle := some { id := 5 }, field_ids := some [("x", 100)],
                         field_types := some [("x", 0)], owned := true, escaped := false },
        parent := none, privileges := [("x", RW)], owned := true, escaped := false }
      4 { tid := 1, id := 2, type_tag := 3 } { id := 5 }
      { handle := some { tid := 1, id := 2, type_tag := 3 }, owned := true, escaped := false }
      { handle := some { id := 5 }, field_ids := some [("x", 100)],
        field_types := some [("x", 0)], owned := true, escaped := false }
      [("x", 100)] [("x", 0)] rfl rfl rfl rfl rfl rfl rfl (by decide)

/-- Claim C9: a Region constructed as owned (in particular by
Region.create) has, immediately after construction, the RW privilege
recorded for every field name of its field space; a non-owned Region
starts with an empty privilege map. -/
theorem owned_region_initial_privileges :
    (∀ (h : RegionHandle) (is : Ispace) (fs : Fspace) (fids : List (String × Nat)),
      fs.field_ids = some fids → (fids.map Prod.fst).Nodup →
      Region.init h is fs none true = Except.ok
        { handle := some h, ispace := some is, fspace := some fs, parent := none,
          privileges := fids.map fun p => (p.1, RW), owned := true, escaped := false } ∧
      (∀ f : String, ((fids.map fun p => (p.1, RW)).lookup f = some RW ↔
        f ∈ fids.map Prod.fst))) ∧
    (∀ (h : RegionHandle) (is : Ispace) (fs : Fspace) (parent : Option Unit),
      Region.init h is fs parent false = Except.ok
        { handle := some h, ispace := some is, fspace := some fs, parent := parent,
          privileges := [], owned := false, escaped := false }) ∧
    (∀ (h : RegionHandle) (is : Ispace) (fs : Fspace),
      Region.create h is fs = Region.init h is fs none true) := by
  refine ⟨?_, fun h is fs parent => rfl, fun h is fs => rfl⟩
  intro h is fs fids hfid hnodup
  refine ⟨?_, fun f => lookup_map_RW fids f⟩
  rw [region_init_owned_eq h is fs fids hfid]
  rw [set_privilege_fold_base fids _ _ _ _ _ hnodup]

/-- Witness for claim C9 on a concrete two-field field space. -/
theorem owned_region_initial_privileges_witness :
    Region.init
        { tree_id := 1, index_space := { tid := 1, id := 2, type_tag := 3 },
          field_space := { id := 5 } }
        (Ispace.mk (some (IspaceHandle.mk 1 2 3)) false false)
        (Fspace.mk (some (FspaceHandle.mk 5)) (some [("x", 100), ("y", 101)])
          (some [("x", 0), ("y", 1)]) false false)
        none true =
      Except.ok
        { handle := some { tree_id := 1, index_space := { tid := 1, id := 2, type_tag := 3 },
                           field_space := { id := 5 } },
          ispace := some (Ispace.mk (some (IspaceHandle.mk 1 2 3)) false false),
          fspace := some (Fspace.mk (some (FspaceHandle.mk 5))
            (some [("x", 100), ("y", 101)]) (some [("x", 0), ("y", 1)]) false false),
          parent := none, privileges := [("x", RW), ("y", RW)],
          owned := true, escaped := false } := by
  have h := owned_region_initial_privileges.1
    { tree_id := 1, index_space := { tid := 1, id := 2, type_tag := 3 },
      field_space := { id := 5 } }
    (Ispace.mk (some (IspaceHandle.mk 1 2 3)) false false)
    (Fspace.mk (some (FspaceHandle.mk 5)) (some [("x", 100), ("y", 101)])
      (some [("x", 0), ("y", 1)]) false false)
    [("x", 100), ("y", 101)] rfl (by decide)
  exact h.1

/-- Claim C5: pickling a Future succeeds exactly when it carries an
argument_number (it stands for an argument slot of the task being
launched); a directly-resolved Future without one raises; a successfully
pickled Future reconstructs to a Future with the same value_type and
argument_number and no engine handle. -/
theorem future_pickle_iff_argument_number :
    (∀ f : Future, isOk f.reduce = true ↔ f.argument_number ≠ none) ∧
    (∀ f : Future, f.argument_number = none →
      f.reduce = Except.error
        (PyErr.exn "Cannot pickle a Future except when used as a task argument")) ∧
    (∀ (f : Future) (n : Nat), f.argument_number = some n →
      f.reduce = Except.ok (f.value_type, some n) ∧
      Future.initNone f.value_type (some n) =
        { handle := none, value_type := f.value_type, argument_number := some n }) := by
  refine ⟨?_, ?_, ?_⟩
  · intro f
    rcases f with ⟨h, vt, an⟩
    cases an <;> simp [Future.reduce, isOk]
  · intro f hf
    unfold Future.reduce
    rw [hf]
  · intro f n hf
    constructor
    · unfold Future.reduce
      rw [hf]
    · rfl

/-- Witness for claim C5 at a concrete task-argument Future. -/
theorem future_pickle_iff_argument_number_witness :
    (Future.mk none (some 3) (some 2)).reduce = Except.ok (some 3, some 2) ∧
    Future.initNone (some 3) (some 2) = Future.mk none (some 3) (some 2) :=
  future_pickle_iff_argument_number.2.2 (Future.mk none (some 3) (some 2)) 2 rfl

/-- Claim C6: registering a Task that already has a task id fails; a
non-top-level registration without an explicit id takes the next value of
the private counter, so successive registrations obtain distinct, strictly
increasing identifiers, never reused, each below the reserved upper bound
init_id + max_legion_python_tasks; the designated top-level task receives
the fixed identifier 1. -/
theorem task_id_assignment :
    (∀ (init_id next tid : Nat) (task_id : Option Nat) (top : Bool),
      Task.register init_id next (some tid) task_id top =
        Except.error PyErr.assertionError) ∧
    (∀ init_id next : Nat, next < init_id + max_legion_python_tasks →
      Task.register init_id next none none false = Except.ok (next, next + 1)) ∧
    (∀ init_id next : Nat, ¬next < init_id + max_legion_python_tasks →
      Task.register init_id next none none false =
        Except.error PyErr.assertionError) ∧
    (∀ init_id next id1 next1 id2 next2 : Nat,
      Task.register init_id next none none false = Except.ok (id1, next1) →
      Task.register init_id next1 none none false = Except.ok (id2, next2) →
      id1 < id2 ∧ id1 < init_id + max_legion_python_tasks ∧
        id2 < init_id + max_legion_python_tasks) ∧
    (∀ init_id next : Nat,
      Task.register init_id next none none true = Except.ok (1, next)) := by
  have hreg : ∀ init_id next id1 next1 : Nat,
      Task.register init_id next none none false = Except.ok (id1, next1) →
      id1 = next ∧ next1 = next + 1 ∧ next < init_id + max_legion_python_tasks := by
    intro init_id next id1 next1 h
    unfold Task.register at h
    rw [if_neg (by simp), if_pos (Or.inl rfl), if_pos rfl] at h
    split at h
    case isTrue hb =>
      have h2 := Except.ok.inj h
      rw [Prod.mk.injEq] at h2
      exact ⟨h2.1.symm, h2.2.symm, hb⟩
    case isFalse hb => exact Except.noConfusion h
  refine ⟨?_, ?_, ?_, ?_, ?_⟩
  · intro init_id next tid task_id top
    unfold Task.register
    rw [if_pos (by simp)]
  · intro init_id next hlt
    unfold Task.register
    rw [if_neg (by simp), if_pos (Or.inl rfl), if_pos rfl, if_pos hlt]
  · intro init_id next hge
    unfold Task.register
    rw [if_neg (by simp), if_pos (Or.inl rfl), if_pos rfl, if_neg hge]
  · intro init_id next id1 next1 id2 next2 h1 h2
    obtain ⟨ha1, ha2, ha3⟩ := hreg init_id next id1 next1 h1
    obtain ⟨hb1, hb2, hb3⟩ := hreg init_id next1 id2 next2 h2
    refine ⟨by omega, ha1 ▸ ha3, hb1 ▸ hb3⟩
  · intro init_id next
    unfold Task.register
    rw [if_neg (by simp), if_pos (Or.inl rfl), if_neg (by simp)]

/-- Witness for claim C6 at concrete counter values. -/
theorem task_id_assignment_witness :
    Task.register 1000 1005 (some 7) none false = Except.error PyErr.assertionError ∧
    Task.register 1000 1005 none none false = Except.ok (1005, 1006) ∧
    Task.register 1000 1006 none none false = Except.ok (1006, 1007) ∧
    Task.register 1000 (1000 + max_legion_python_tasks) none none false =
      Except.error PyErr.assertionError ∧
    (1005 < 1006 ∧ 1005 < 1000 + max_legion_python_tasks ∧
      1006 < 1000 + max_legion_python_tasks) ∧
    Task.register 1000 1005 none none true = Except.ok (1, 1005) :=
  ⟨task_id_assignment.1 1000 1005 7 none false,
   task_id_assignment.2.1 1000 1005 (by decide),
   task_id_assignment.2.1 1000 1006 (by decide),
   task_id_assignment.2.2.1 1000 (1000 + max_legion_python_tasks)
     (Nat.lt_irrefl (1000 + max_legion_python_tasks)),
   task_id_assignment.2.2.2.1 1000 1005 1005 1006 1006 1007 (by decide) (by decide),
   task_id_assignment.2.2.2.2 1000 1005⟩

/-- Claim C7: each Context holds at most one active bulk launch:
begin_launch succeeds exactly when no launch is active and records the
given launch; end_launch succeeds exactly when the given launch is the
active one and clears the slot. -/
theorem context_launch_nesting :
    (∀ (ctx : Context) (l : Nat),
      isOk (ctx.begin_launch l) = true ↔ ctx.current_launch = none) ∧
    (∀ (ctx ctx2 : Context) (l : Nat), ctx.begin_launch l = Except.ok ctx2 →
      ctx2.current_launch = some l) ∧
    (∀ (ctx : Context) (l : Nat),
      isOk (ctx.end_launch l) = true ↔ ctx.current_launch = some l) ∧
    (∀ (ctx ctx2 : Context) (l : Nat), ctx.end_launch l = Except.ok ctx2 →
      ctx2.current_launch = none) := by
  refine ⟨?_, ?_, ?_, ?_⟩
  · intro ctx l
    rcases ctx with ⟨cl⟩
    by_cases h : cl = none
    · subst h
      simp [Context.begin_launch, isOk]
    · simp [Context.begin_launch, isOk, h]
  · intro ctx ctx2 l h
    unfold Context.begin_launch at h
    split at h
    case isTrue hc =>
      have h2 := Except.ok.inj h
      rw [← h2]
    case isFalse hc => exact Except.noConfusion h
  · intro ctx l
    rcases ctx with ⟨cl⟩
    by_cases h : cl = some l
    · simp [Context.end_launch, isOk, h]
    · simp [Context.end_launch, isOk, h]
  · intro ctx ctx2 l h
    unfold Context.end_launch at h
    split at h
    case isTrue hc =>
      have h2 := Except.ok.inj h
      rw [← h2]
    case isFalse hc => exact Except.noConfusion h

/-- Witness for claim C7 at a concrete Context. -/
theorem context_launch_nesting_witness :
    (Context.mk (some 7)).current_launch = some 7 ∧
    (Context.mk none).current_launch = none :=
  ⟨context_launch_nesting.2.1 (Context.mk none) (Context.mk (some 7)) 7 rfl,
   context_launch_nesting.2.2.2 (Context.mk (some 7)) (Context.mk none) 7 rfl⟩

/-- Claim C10: constructing an IndexLaunch from an Ispace always raises
NameError, because that branch of the constructor reads the undefined name
ispace; construction from a Domain or a raw extent succeeds. -/
theorem index_launch_from_ispace_name_error :
    (∀ s : Ispace, IndexLaunch.init (DomainArg.ispace s) = Except.error PyErr.nameError) ∧
    (∀ d : Domain, IndexLaunch.init (DomainArg.domain d) =
      Except.ok { domain := d, saved_task := none, saved_args := none }) ∧
    (∀ (extent : List Int) (d : Domain), Domain.create extent none = Except.ok d →
      IndexLaunch.init (DomainArg.raw extent) =
        Except.ok { domain := d, saved_task := none, saved_args := none }) := by
  refine ⟨fun s => rfl, fun d => rfl, ?_⟩
  intro extent d hc
  show (Domain.create extent none).map
      (fun d => ({ domain := d, saved_task := none, saved_args := none } : IndexLaunch)) = _
  rw [hc, exc_map_ok]

/-- Witness for claim C10 at a concrete Ispace and extent. -/
theorem index_launch_from_ispace_name_error_witness :
    IndexLaunch.init (DomainArg.ispace (Ispace.mk (some (IspaceHandle.mk 1 2 3)) true false)) =
      Except.error PyErr.nameError ∧
    IndexLaunch.init (DomainArg.raw [2]) =
      Except.ok { domain := Domain.mk 1 [0, 1], saved_task := none, saved_args := none } :=
  ⟨index_launch_from_ispace_name_error.1 (Ispace.mk (some (IspaceHandle.mk 1 2 3)) true false),
   index_launch_from_ispace_name_error.2.2 [2] (Domain.mk 1 [0, 1]) (by decide)⟩

/-- A missing argument always passes the argument check. -/
theorem checkArgPair_none_left (s : Option PyArg) : checkArgPair none s = true := rfl

/-- zip_longest of an empty spawn against any saved tuple passes. -/
theorem zipLongest_nil_left_all (l2 : List PyArg) :
    ((zipLongest [] l2).all fun p => checkArgPair p.1 p.2) = true := by
  induction l2 with
  | nil => rfl
  | cons s ss ih =>
    rw [show zipLongest [] (s :: ss) = (none, some s) :: zipLongest [] ss from rfl,
      List.all_cons, checkArgPair_none_left]
    simpa using ih

/-- The argument loop passes exactly when every position passes. -/
theorem zipLongest_all_iff :
    ∀ l l2 : List PyArg,
      ((zipLongest l l2).all fun p => checkArgPair p.1 p.2) = true ↔
        ∀ i : Nat, checkArgPair l[i]? l2[i]? = true := by
  intro l
  induction l with
  | nil =>
    intro l2
    constructor
    · intro _ i
      simp only [List.getElem?_nil]
      exact checkArgPair_none_left _
    · intro _
      exact zipLongest_nil_left_all l2
  | cons a as ih =>
    intro l2
    cases l2 with
    | nil =>
      rw [show zipLongest (a :: as) [] = (some a, none) :: zipLongest as [] from rfl,
        List.all_cons, Bool.and_eq_true]
      constructor
      · rintro ⟨h0, hrest⟩ i
        cases i with
        | zero => simpa using h0
        | succ i => simpa using (ih []).mp hrest i
      · intro h
        refine ⟨by simpa using h 0, (ih []).mpr ?_⟩
        intro i
        simpa using h (i + 1)
    | cons s ss =>
      rw [show zipLongest (a :: as) (s :: ss) = (some a, some s) :: zipLongest as ss
          from rfl, List.all_cons, Bool.and_eq_true]
      constructor
      · rintro ⟨h0, hrest⟩ i
        cases i with
        | zero => simpa using h0
        | succ i => simpa using (ih ss).mp hrest i
      · intro h
        refine ⟨by simpa using h 0, (ih ss).mpr ?_⟩
        intro i
        simpa using h (i + 1)

/-- The argument check at one position fails exactly on a Region or
RegionField argument, or on a Future argument that is not identically the
saved argument. -/
theorem checkArgPair_eq_false_iff (a s : Option PyArg) :
    checkArgPair a s = false ↔
      ((∃ o, a = some (PyArg.region o)) ∨ (∃ o, a = some (PyArg.regionField o)) ∨
       (∃ o v, a = some (PyArg.future o v) ∧ s ≠ some (PyArg.future o v))) := by
  cases a with
  | none => simp [checkArgPair]
  | some x =>
    cases x with
    | region o => simp [checkArgPair]
    | regionField o => simp [checkArgPair]
    | future o v =>
      show (s == some (PyArg.future o v)) = false ↔ _
      rw [beq_eq_false_iff_ne]
      constructor
      · intro h
        exact Or.inr (Or.inr ⟨o, v, rfl, h⟩)
      · rintro (⟨o2, h⟩ | ⟨o2, h⟩ | ⟨o2, v2, heq, hne⟩)
        · exact absurd h (by simp)
        · exact absurd h (by simp)
        · injection heq with h3
          injection h3 with h4 h5
          subst h4
          subst h5
          exact hne
    | plain w => simp [checkArgPair]

/-- Failure of the whole argument loop, characterized by positions. -/
theorem all_args_fail_iff (args saved : List PyArg) :
    (¬ ((zipLongest args saved).all fun p => checkArgPair p.1 p.2) = true) ↔
      ((∃ (i : Nat) (o : Nat), args[i]? = some (PyArg.region o) ∨
          args[i]? = some (PyArg.regionField o)) ∨
       (∃ (i : Nat) (o : Nat) (v : Int), args[i]? = some (PyArg.future o v) ∧
          saved[i]? ≠ some (PyArg.future o v))) := by
  rw [zipLongest_all_iff]
  constructor
  · intro h
    obtain ⟨i, hi⟩ := not_forall.mp h
    have hf : checkArgPair args[i]? saved[i]? = false := by
      cases hb : checkArgPair args[i]? saved[i]?
      · rfl
      · exact absurd hb hi
    rw [checkArgPair_eq_false_iff] at hf
    rcases hf with ⟨o, ho⟩ | ⟨o, ho⟩ | ⟨o, v, ho, hs⟩
    · exact Or.inl ⟨i, o, Or.inl ho⟩
    · exact Or.inl ⟨i, o, Or.inr ho⟩
    · exact Or.inr ⟨i, o, v, ho, hs⟩
  · rintro (⟨i, o, ho | ho⟩ | ⟨i, o, v, ho, hs⟩) hall
    · have h2 := hall i
      rw [ho] at h2
      simp [checkArgPair] at h2
    · have h2 := hall i
      rw [ho] at h2
      simp [checkArgPair] at h2
    · have h2 := hall i
      rw [ho] at h2
      exact hs (eq_of_beq h2)

/-- A repeated spawn of the saved task with the identical saved Future
argument is accepted and leaves the launch state unchanged. -/
theorem spawn_fixed_point (d : Domain) (t o : Nat) (v : Int) :
    IndexLaunch.check_compatibility ⟨d, some t, some [PyArg.future o v]⟩ t
      [PyArg.future o v] = Except.ok ⟨d, some t, some [PyArg.future o v]⟩ := by
  unfold IndexLaunch.check_compatibility
  simp only [Option.getD_some]
  rw [if_neg (fun h => h rfl)]
  rw [if_pos (by simp [zipLongest, checkArgPair])]

/-- Folding further identical spawns keeps the accepted launch state. -/
theorem spawn_all_fixed (d : Domain) (t o : Nat) (v : Int) (m : Nat) :
    List.foldlM (fun s p => IndexLaunch.check_compatibility s p.1 p.2)
      (⟨d, some t, some [PyArg.future o v]⟩ : IndexLaunch)
      (List.replicate m (t, [PyArg.future o v])) =
      Except.ok ⟨d, some t, some [PyArg.future o v]⟩ := by
  induction m with
  | zero => rfl
  | succ m ih =>
    rw [List.replicate_succ, List.foldlM_cons]
    show (IndexLaunch.check_compatibility ⟨d, some t, some [PyArg.future o v]⟩ t
      [PyArg.future o v]) >>= _ = _
    rw [spawn_fixed_point, exc_bind_ok]
    exact ih

/-- Claim C3 counterexample: two distinct Future objects both carrying the
value 7 are passed at the same position of two spawns of the same task in
one index launch; the spawn is rejected even though the Future value is
equal (7) at every point, because check_compatibility compares Future
arguments by object identity (the Future class defines no equality), not
by value. -/
theorem index_launch_future_value_counterexample :
    isOk (IndexLaunch.spawn_all ⟨⟨1, [0, 1]⟩, none, none⟩
      [(0, [PyArg.future 10 7]), (0, [PyArg.future 11 7])]) = false := by decide

/-- Claim C3 (amended): inside one index launch a spawn is rejected before
anything is submitted to the engine exactly when it targets a different
task than the one saved from the first spawn, passes a Region or
RegionField argument at any position, or passes a Future argument at a
position where it is not identically (the same object as) the argument
saved from the first spawn — the check compares Future objects by
identity, not by value; spawning the same task with one and the same
Future object carrying value 7 at every point succeeds, records that
single future value for the slot, and the engine broadcasts it, so the
FutureMap holds that value at every point. -/
theorem index_launch_compatibility :
    (∀ (st : IndexLaunch) (task : Nat) (args : List PyArg),
      isOk (st.check_compatibility task args) = false ↔
        ((∃ t0, st.saved_task = some t0 ∧ task ≠ t0) ∨
         (∃ (i : Nat) (o : Nat), args[i]? = some (PyArg.region o) ∨
            args[i]? = some (PyArg.regionField o)) ∨
         (∃ (i : Nat) (o : Nat) (v : Int), args[i]? = some (PyArg.future o v) ∧
           (st.saved_args.getD args)[i]? ≠ some (PyArg.future o v)))) ∧
    (∀ (d : Domain) (n t o : Nat) (v : Int), 0 < n →
      IndexLaunch.spawn_all ⟨d, none, none⟩
          (List.replicate n (t, [PyArg.future o v])) =
        Except.ok ⟨d, some t, some [PyArg.future o v]⟩ ∧
      futureValues [PyArg.future o v] = [v] ∧
      ∀ p : List Int, index_launch_future_map (futureValues [PyArg.future o v]) p = [v]) := by
  constructor
  · intro st task args
    rcases st with ⟨dom, stask, sargs⟩
    unfold IndexLaunch.check_compatibility
    cases stask with
    | none =>
      simp only [Option.getD_none]
      rw [if_neg (fun h => h rfl)]
      cases hall : ((zipLongest args (sargs.getD args)).all fun p => checkArgPair p.1 p.2)
      · constructor
        · intro _
          refine Or.inr ((all_args_fail_iff args (sargs.getD args)).mp ?_)
          rw [hall]
          simp
        · intro _
          simp [isOk]
      · constructor
        · intro h
          rw [if_pos rfl] at h
          simp [isOk] at h
        · rintro (⟨t0, heq, _⟩ | h | h)
          · exact Option.noConfusion heq
          · exact absurd hall
              (by simpa using (all_args_fail_iff args (sargs.getD args)).mpr (Or.inl h))
          · exact absurd hall
              (by simpa using (all_args_fail_iff args (sargs.getD args)).mpr (Or.inr h))
    | some t0 =>
      simp only [Option.getD_some]
      by_cases ht : task = t0
      · subst ht
        rw [if_neg (fun h => h rfl)]
        cases hall : ((zipLongest args (sargs.getD args)).all fun p => checkArgPair p.1 p.2)
        · constructor
          · intro _
            refine Or.inr ((all_args_fail_iff args (sargs.getD args)).mp ?_)
            rw [hall]
            simp
          · intro _
            simp [isOk]
        · constructor
          · intro h
            rw [if_pos rfl] at h
            simp [isOk] at h
          · rintro (⟨t0', heq, hne⟩ | h | h)
            · injection heq with h2
              exact (hne h2).elim
            · exact absurd hall
                (by simpa using (all_args_fail_iff args (sargs.getD args)).mpr (Or.inl h))
            · exact absurd hall
                (by simpa using (all_args_fail_iff args (sargs.getD args)).mpr (Or.inr h))
      · rw [if_pos ht]
        constructor
        · intro _
          exact Or.inl ⟨t0, rfl, ht⟩
        · intro _
          rfl
  · intro d n t o v hn
    refine ⟨?_, rfl, fun p => rfl⟩
    obtain ⟨m, rfl⟩ : ∃ m, n = m + 1 := ⟨n - 1, by omega⟩
    rw [List.replicate_succ]
    unfold IndexLaunch.spawn_all
    rw [List.foldlM_cons]
    have h1 : IndexLaunch.check_compatibility ⟨d, none, none⟩ t [PyArg.future o v] =
        Except.ok ⟨d, some t, some [PyArg.future o v]⟩ := by
      unfold IndexLaunch.check_compatibility
      simp only [Option.getD_none]
      rw [if_neg (fun h => h rfl)]
      rw [if_pos (by simp [zipLongest, checkArgPair])]
    show (IndexLaunch.check_compatibility ⟨d, none, none⟩ t [PyArg.future o v]) >>= _ = _
    rw [h1, exc_bind_ok]
    exact spawn_all_fixed d t o v m

/-- Witness for claim C3: two spawns of the same task with the identical
Future object carrying 7 are accepted, and the broadcast FutureMap value
at a sample point is 7. -/
theorem index_launch_compatibility_witness :
    IndexLaunch.spawn_all ⟨⟨1, [0, 1]⟩, none, none⟩
        (List.replicate 2 (0, [PyArg.future 5 7])) =
      Except.ok ⟨⟨1, [0, 1]⟩, some 0, some [PyArg.future 5 7]⟩ ∧
    index_launch_future_map (futureValues [PyArg.future 5 7]) [1] = [7] := by
  have h := index_launch_compatibility.2 ⟨1, [0, 1]⟩ 2 0 5 7 (by decide)
  exact ⟨h.1, h.2.2 [1]⟩

/-- Pointwise reading of updShard. -/
theorem updShard_apply {n : Nat} (s : Fin n → ShardState) (i j : Fin n) (x : ShardState) :
    updShard s i x j = if j = i then x else s j := rfl

/-- The initial state satisfies the protocol invariant. -/
theorem regInit_inv (n c0 : Nat) : RegInv n c0 (regInit n c0) := by
  constructor
  · intro i
    refine ⟨fun h3 => ?_, fun _ => ⟨rfl, rfl⟩⟩
    simp [regInit, ShardPhase.rank] at h3
  · intro i hi
    exact ShardPhase.noConfusion hi

/-- Every protocol step preserves the invariant. -/
theorem regStep_inv {n c0 : Nat} {s t : Fin n → ShardState}
    (hstep : RegStep n s t) (hinv : RegInv n c0 s) : RegInv n c0 t := by
  obtain ⟨hids, hdone⟩ := hinv
  cases hstep with
  | arrivePre i hph ht =>
    subst ht
    refine ⟨fun k => ?_, fun k hk j => ?_⟩
    · rw [updShard_apply]
      by_cases hki : k = i
      · rw [if_pos hki]
        refine ⟨fun h3 => absurd h3 (by show ¬3 ≤ ShardPhase.rank ShardPhase.arrivedPre; decide),
          fun _ => ?_⟩
        exact (hids i).2 (by rw [hph]; decide)
      · rw [if_neg hki]
        exact hids k
    · rw [updShard_apply] at hk
      by_cases hki : k = i
      · rw [if_pos hki] at hk
        exact ShardPhase.noConfusion hk
      · rw [if_neg hki] at hk
        have hcontra := hdone k hk i
        rw [hph] at hcontra
        exact absurd hcontra (by decide)
  | waitPre i hph hbar ht =>
    subst ht
    refine ⟨fun k => ?_, fun k hk j => ?_⟩
    · rw [updShard_apply]
      by_cases hki : k = i
      · rw [if_pos hki]
        refine ⟨fun h3 => absurd h3 (by show ¬3 ≤ ShardPhase.rank ShardPhase.passedPre; decide),
          fun _ => ?_⟩
        exact (hids i).2 (by rw [hph]; decide)
      · rw [if_neg hki]
        exact hids k
    · rw [updShard_apply] at hk
      by_cases hki : k = i
      · rw [if_pos hki] at hk
        exact ShardPhase.noConfusion hk
      · rw [if_neg hki] at hk
        have hcontra := hdone k hk i
        rw [hph] at hcontra
        exact absurd hcontra (by decide)
  | register i hph ht =>
    subst ht
    refine ⟨fun k => ?_, fun k hk j => ?_⟩
    · rw [updShard_apply]
      by_cases hki : k = i
      · rw [if_pos hki]
        obtain ⟨h4, h5⟩ := (hids i).2 (by rw [hph]; decide)
        refine ⟨fun _ => ⟨by rw [h5], by rw [h5]⟩,
          fun h3 => absurd h3 (by show ¬ShardPhase.rank ShardPhase.registered < 3; decide)⟩
      · rw [if_neg hki]
        exact hids k
    · rw [updShard_apply] at hk
      by_cases hki : k = i
      · rw [if_pos hki] at hk
        exact ShardPhase.noConfusion hk
      · rw [if_neg hki] at hk
        have hcontra := hdone k hk i
        rw [hph] at hcontra
        exact absurd hcontra (by decide)
  | arrivePost i hph ht =>
    subst ht
    refine ⟨fun k => ?_, fun k hk j => ?_⟩
    · rw [updShard_apply]
      by_cases hki : k = i
      · rw [if_pos hki]
        refine ⟨fun _ => (hids i).1 (by rw [hph]; decide),
          fun h3 => absurd h3 (by show ¬ShardPhase.rank ShardPhase.arrivedPost < 3; decide)⟩
      · rw [if_neg hki]
        exact hids k
    · rw [updShard_apply] at hk
      by_cases hki : k = i
      · rw [if_pos hki] at hk
        exact ShardPhase.noConfusion hk
      · rw [if_neg hki] at hk
        have hcontra := hdone k hk i
        rw [hph] at hcontra
        exact absurd hcontra (by decide)
  | waitPost i hph hbar ht =>
    subst ht
    refine ⟨fun k => ?_, fun k hk j => ?_⟩
    · rw [updShard_apply]
      by_cases hki : k = i
      · rw [if_pos hki]
        refine ⟨fun _ => (hids i).1 (by rw [hph]; decide),
          fun h3 => absurd h3 (by show ¬ShardPhase.rank ShardPhase.done < 3; decide)⟩
      · rw [if_neg hki]
        exact hids k
    · rw [updShard_apply]
      by_cases hji : j = i
      · rw [if_pos hji]
        show ShardPhase.rank ShardPhase.arrivedPost ≤ ShardPhase.rank ShardPhase.done
        decide
      · rw [if_neg hji]
        exact hbar j

/-- Every reachable state satisfies the protocol invariant. -/
theorem regReachable_inv {n c0 : Nat} {s : Fin n → ShardState}
    (h : RegReachable n c0 s) : RegInv n c0 s := by
  have h2 : Relation.ReflTransGen (RegStep n) (regInit n c0) s := h
  clear h
  induction h2 with
  | refl => exact regInit_inv n c0
  | tail hab hbc ih => exact regStep_inv hbc ih

/-- Claim C8: under the global task-registration barrier, in every
reachable interleaving of the n-shard registration protocol, once any
shard has passed its post-registration wait every shard has at least
arrived at the post-registration barrier, and every shard that registered
holds the same task id (the common initial counter value c0), so the task
id registered for a given task body is identical across all n shards. -/
theorem barrier_registration_protocol :
    ∀ (n c0 : Nat) (s : Fin n → ShardState), RegReachable n c0 s →
      ∀ i : Fin n, (s i).phase = ShardPhase.done →
        (∀ j, ShardPhase.rank ShardPhase.arrivedPost ≤ ShardPhase.rank ((s j).phase)) ∧
        (s i).task_id = some c0 ∧
        (∀ j, (s j).phase = ShardPhase.done → (s j).task_id = (s i).task_id) := by
  intro n c0 s h i hi
  obtain ⟨hids, hdone⟩ := regReachable_inv h
  refine ⟨fun j => hdone i hi j, ((hids i).1 (by rw [hi]; decide)).1, ?_⟩
  intro j hj
  rw [((hids j).1 (by rw [hj]; decide)).1, ((hids i).1 (by rw [hi]; decide)).1]

/-- Two-shard state builder for the witness run. -/
def c8St (a b : ShardState) : Fin 2 → ShardState :=
  fun j => if j = 0 then a else b

/-- Witness for claim C8: a complete two-shard run of the protocol reaches
a state where both shards are done with the same task id 0 (the common
initial counter value). -/
theorem barrier_registration_protocol_witness :
    (c8St ⟨ShardPhase.done, 1, some 0⟩ ⟨ShardPhase.done, 1, some 0⟩ 1).task_id =
      (c8St ⟨ShardPhase.done, 1, some 0⟩ ⟨ShardPhase.done, 1, some 0⟩ 0).task_id ∧
    (c8St ⟨ShardPhase.done, 1, some 0⟩ ⟨ShardPhase.done, 1, some 0⟩ 0).task_id =
      some 0 := by
  have h0 : RegReachable 2 0 (regInit 2 0) := Relation.ReflTransGen.refl
  have h1 : RegReachable 2 0
      (c8St ⟨ShardPhase.arrivedPre, 0, none⟩ ⟨ShardPhase.start, 0, none⟩) :=
    Relation.ReflTransGen.tail h0
      (RegStep.arrivePre _ _ 0 (by decide) (by funext j; fin_cases j <;> decide))
  have h2 : RegReachable 2 0
      (c8St ⟨ShardPhase.arrivedPre, 0, none⟩ ⟨ShardPhase.arrivedPre, 0, none⟩) :=
    Relation.ReflTransGen.tail h1
      (RegStep.arrivePre _ _ 1 (by decide) (by funext j; fin_cases j <;> decide))
  have h3 : RegReachable 2 0
      (c8St ⟨ShardPhase.passedPre, 0, none⟩ ⟨ShardPhase.arrivedPre, 0, none⟩) :=
    Relation.ReflTransGen.tail h2
      (RegStep.waitPre _ _ 0 (by decide) (by decide) (by funext j; fin_cases j <;> decide))
  have h4 : RegReachable 2 0
      (c8St ⟨ShardPhase.passedPre, 0, none⟩ ⟨ShardPhase.passedPre, 0, none⟩) :=
    Relation.ReflTransGen.tail h3
      (RegStep.waitPre _ _ 1 (by decide) (by decide) (by funext j; fin_cases j <;> decide))
  have h5 : RegReachable 2 0
      (c8St ⟨ShardPhase.registered, 1, some 0⟩ ⟨ShardPhase.passedPre, 0, none⟩) :=
    Relation.ReflTransGen.tail h4
      (RegStep.register _ _ 0 (by decide) (by funext j; fin_cases j <;> decide))
  have h6 : RegReachable 2 0
      (c8St ⟨ShardPhase.registered, 1, some 0⟩ ⟨ShardPhase.registered, 1, some 0⟩) :=
    Relation.ReflTransGen.tail h5
      (RegStep.register _ _ 1 (by decide) (by funext j; fin_cases j <;> decide))
  have h7 : RegReachable 2 0
      (c8St ⟨ShardPhase.arrivedPost, 1, some 0⟩ ⟨ShardPhase.registered, 1, some 0⟩) :=
    Relation.ReflTransGen.tail h6
      (RegStep.arrivePost _ _ 0 (by decide) (by funext j; fin_cases j <;> decide))
  have h8 : RegReachable 2 0
      (c8St ⟨ShardPhase.arrivedPost, 1, some 0⟩ ⟨ShardPhase.arrivedPost, 1, some 0⟩) :=
    Relation.ReflTransGen.tail h7
      (RegStep.arrivePost _ _ 1 (by decide) (by funext j; fin_cases j <;> decide))
  have h9 : RegReachable 2 0
      (c8St ⟨ShardPhase.done, 1, some 0⟩ ⟨ShardPhase.arrivedPost, 1, some 0⟩) :=
    Relation.ReflTransGen.tail h8
      (RegStep.waitPost _ _ 0 (by decide) (by decide) (by funext j; fin_cases j <;> decide))
  have h10 : RegReachable 2 0
      (c8St ⟨ShardPhase.done, 1, some 0⟩ ⟨ShardPhase.done, 1, some 0⟩) :=
    Relation.ReflTransGen.tail h9
      (RegStep.waitPost _ _ 1 (by decide) (by decide) (by funext j; fin_cases j <;> decide))
  have hmain := barrier_registration_protocol 2 0 _ h10 0 (by decide)
  exact ⟨hmain.2.2 1 (by decide), hmain.2.1⟩

end Legion
